import Mathlib

/-
Verification of the Audio-Scriber transcription pipeline.

The development shallowly embeds the audio-processing pipeline of the
repository (duration probing, chunk planning, sequential transcription with
per-chunk failure isolation, transcript assembly, blank-transcript check,
structured analysis) together with the recording store's read operation.

Modelling decisions, all taken from the source:
  - an audio clip is represented by its probed duration (a rational, standing
    for the JavaScript floating-point `audio.duration`) and its byte size;
  - the two remote calls (transcription, analysis) are oracles supplied in a
    `PipelineEnv`; a throwing call is an `Except.error`;
  - `Math.ceil(duration / 540)` is computed on the numerator/denominator
    representation of the rational so that it is kernel-executable; the
    bridging lemmas `numChunks_eq_ceil` and `chunkByteSize_eq_ceil` prove it
    equal to the mathematical ceiling;
  - `Math.round(x)` for nonnegative `x` is `floor(x + 1/2)`, so the per-chunk
    progress `20 + Math.round((i / numChunks) * 60)` is embedded as natural
    division `20 + (120 * i + n) / (2 * n)` (lemma `chunkProgress_eq_round`);
  - the JavaScript string builtins `trim` and `Array.join` are embedded as
    `jsTrim` and `jsJoin` over character lists.
-/

namespace AudioScriber

/-! Data model, following `types.ts`. -/

/-- Result of the structured analysis call: `{summary, actionItems, highlights}`. -/
structure AnalysisResult where
  summary : String
  actionItems : List String
  highlights : List String
deriving DecidableEq

/-- Externally visible output of the pipeline: the analysis fields plus the
raw transcript (`{ ...analysisJson, rawTranscript }`). -/
structure TranscriptionData where
  summary : String
  actionItems : List String
  highlights : List String
  rawTranscript : String
deriving DecidableEq

/-- One invocation of the progress callback: `{ message, progress }`. -/
structure ProgressEvent where
  message : String
  progress : ℕ
deriving DecidableEq

/-! Duration prober (`getAudioDuration`). -/

/-- Duration prober.  The argument is the outcome of loading the clip's
metadata: `some dur` if the `loadedmetadata` event fired with that duration,
`none` if the `error` event fired.  The prober resolves with the duration in
the first case and with the sentinel `0` in the second; being a total Lean
function, it cannot throw. -/
def getAudioDuration (metadata : Option ℚ) : ℚ :=
  match metadata with
  | some dur => dur
  | none => 0

/-! Chunk planner. -/

/-- The constant `MAX_CHUNK_MINUTES = 9` from `processAudio`. -/
def MAX_CHUNK_MINUTES : ℕ := 9

/-- The constant `MAX_CHUNK_SECONDS = MAX_CHUNK_MINUTES * 60 = 540`. -/
def MAX_CHUNK_SECONDS : ℕ := MAX_CHUNK_MINUTES * 60

/-- Number of chunks for a long clip: `Math.ceil(duration / MAX_CHUNK_SECONDS)`.
The ceiling is computed on the numerator/denominator representation of the
rational duration (so that the definition is kernel-executable); lemma
`numChunks_eq_ceil` shows it equals `⌈d / 540⌉` for positive durations. -/
def numChunks (d : ℚ) : ℕ :=
  ((d.num + (MAX_CHUNK_SECONDS : ℤ) * d.den - 1).fdiv ((MAX_CHUNK_SECONDS : ℤ) * d.den)).toNat

/-- Byte size of each chunk: `Math.ceil(audioBlob.size / numChunks)`, the
ceiling division of naturals. -/
def chunkByteSize (S n : ℕ) : ℕ := (S + n - 1) / n

/-- Byte range of chunk `i`: `audioBlob.slice(i * chunkSize, (i+1) * chunkSize)`.
`Blob.slice` clamps both endpoints to the blob's size, hence the `min`s. -/
def chunkRange (S c i : ℕ) : ℕ × ℕ := (min (i * c) S, min ((i + 1) * c) S)

/-- The full chunk plan: one whole-clip chunk when the duration does not
exceed `MAX_CHUNK_SECONDS`, otherwise the byte ranges of the
`numChunks` slices. -/
def chunkPlan (d : ℚ) (S : ℕ) : List (ℕ × ℕ) :=
  if d ≤ (MAX_CHUNK_SECONDS : ℚ) then [(0, S)]
  else (List.range (numChunks d)).map (chunkRange S (chunkByteSize S (numChunks d)))

/-! JavaScript string builtins used by the pipeline. -/

/-- Embedding of `String.prototype.trim`: drop whitespace characters from
both ends of the character list. -/
def jsTrim (s : String) : String :=
  ⟨((s.data.dropWhile Char.isWhitespace).reverse.dropWhile Char.isWhitespace).reverse⟩

/-- Embedding of `Array.prototype.join(sep)`. -/
def jsJoin (sep : String) : List String → String
  | [] => ""
  | [s] => s
  | s :: rest => s ++ sep ++ jsJoin sep rest

/-! Transcription and analysis oracles. -/

/-- Environment of remote calls.  `transcribe` is the transcription model
call, indexed by the byte range of the audio payload sent; `analyze` is the
analysis call on the raw transcript (remote call, `JSON.parse`, and the
schema enforced by `responseSchema`, all abstracted into one oracle).  An
`Except.error` is a thrown error. -/
structure PipelineEnv where
  transcribe : ℕ × ℕ → Except String String
  analyze : String → Except String AnalysisResult

/-- The placeholder pushed when transcribing chunk number `k` (1-based) threw. -/
def errPlaceholder (k : ℕ) : String :=
  "\n[-- Error transcribing chunk " ++ toString k
    ++ ". The audio segment might have been too long or corrupted. --]\n"

/-- The transcription results for the chunked loop: the model's text on
success, the placeholder naming the 1-based chunk number on failure. -/
def chunkSegments (env : PipelineEnv) (S c n : ℕ) : List String :=
  (List.range n).map fun i =>
    match env.transcribe (chunkRange S c i) with
    | .ok t => t
    | .error _ => errPlaceholder (i + 1)

/-- Progress reported before transcribing chunk `i` of `n` (0-based):
`20 + Math.round((i / numChunks) * 60)`, embedded via
`Math.round x = ⌊x + 1/2⌋` as a natural division. -/
def chunkProgress (i n : ℕ) : ℕ := 20 + (120 * i + n) / (2 * n)

/-- The progress events of the transcription phase: a single `20` event in
single-pass mode, one interpolated event per chunk in chunked mode. -/
def transcriptionEvents (d : ℚ) : List ProgressEvent :=
  if d ≤ (MAX_CHUNK_SECONDS : ℚ) then [⟨"Transcribing audio...", 20⟩]
  else (List.range (numChunks d)).map fun i =>
    ⟨"Transcribing chunk " ++ toString (i + 1) ++ " of " ++ toString (numChunks d) ++ "...",
      chunkProgress i (numChunks d)⟩

/-- The raw transcript produced by the transcription phase: the single
whole-clip call's text in single-pass mode (its failure propagates, hence
the `Except`), the space-join of the per-chunk segments in chunked mode
(never a failure: every chunk error was replaced by a placeholder). -/
def assembleRaw (d : ℚ) (S : ℕ) (env : PipelineEnv) : Except String String :=
  if d ≤ (MAX_CHUNK_SECONDS : ℚ) then env.transcribe (0, S)
  else .ok (jsJoin " " (chunkSegments env S (chunkByteSize S (numChunks d)) (numChunks d)))

/-- Observable outcome of one pipeline run: the returned value or thrown
error, the progress events in order, the byte ranges sent to the
transcription model, and the transcripts sent to the analysis model. -/
structure PipelineOutput where
  result : Except String TranscriptionData
  events : List ProgressEvent
  calls : List (ℕ × ℕ)
  analysisCalls : List String

/-- Tail of the pipeline after the raw transcript is assembled: the blank
check (`if (!rawTranscript.trim())`), then the analysis call at progress 85,
then completion at progress 100 with `{ ...analysisJson, rawTranscript }`. -/
def finishStage (raw : String) (evs : List ProgressEvent) (calls : List (ℕ × ℕ))
    (env : PipelineEnv) : PipelineOutput :=
  if jsTrim raw = "" then
    ⟨.error "Failed to transcribe audio. The response was empty.", evs, calls, []⟩
  else
    match env.analyze raw with
    | .error e => ⟨.error e, evs ++ [⟨"Analyzing full transcript...", 85⟩], calls, [raw]⟩
    | .ok a =>
        ⟨.ok ⟨a.summary, a.actionItems, a.highlights, raw⟩,
          evs ++ [⟨"Analyzing full transcript...", 85⟩, ⟨"Finalizing...", 100⟩], calls, [raw]⟩

/-- The pipeline `processAudio`, for a clip of probed duration `d` and byte
size `S`.  Progress 5 is reported first; the transcription phase makes the
planned calls and assembles the raw transcript; the tail is `finishStage`. -/
def processAudio (d : ℚ) (S : ℕ) (env : PipelineEnv) : PipelineOutput :=
  let evs := ⟨"Analyzing audio file...", 5⟩ :: transcriptionEvents d
  match assembleRaw d S env with
  | .error e => ⟨.error e, evs, chunkPlan d S, []⟩
  | .ok raw => finishStage raw evs (chunkPlan d S) env

/-! Concrete oracles used for witnesses and counterexamples. -/

/-- Oracle whose transcription calls all throw. -/
def envFail : PipelineEnv := ⟨fun _ => .error "boom", fun _ => .ok ⟨"s", [], []⟩⟩

/-- Oracle whose transcription calls all succeed with the empty string. -/
def envEmptyOk : PipelineEnv := ⟨fun _ => .ok "", fun _ => .ok ⟨"s", [], []⟩⟩

/-- Oracle returning "a", "b", "c" for the three slices of a 3-byte clip. -/
def envABC : PipelineEnv :=
  ⟨fun r => if r = (0, 1) then .ok "a" else if r = (1, 2) then .ok "b"
    else if r = (2, 3) then .ok "c" else .ok "",
   fun _ => .error "unused"⟩

/-- Oracle for a successful single-pass run with transcript "x". -/
def envX : PipelineEnv := ⟨fun _ => .ok "x", fun _ => .ok ⟨"S", ["A1"], ["H1"]⟩⟩

/-! Analysis payload parsing (`analysisSchema` and `JSON.parse`). -/

/-- JSON values, the result of `JSON.parse` on the analysis response. -/
inductive Json where
  | null : Json
  | bool : Bool → Json
  | num : ℚ → Json
  | str : String → Json
  | arr : List Json → Json
  | obj : List (String × Json) → Json

/-- Reads a JSON value as the schema type `Type.STRING`. -/
def Json.asString : Json → Option String
  | .str s => some s
  | _ => none

/-- Reads a JSON value as the schema type `Type.ARRAY` with
`items : {type: Type.STRING}`. -/
def Json.asStringArray : Json → Option (List String)
  | .arr es => es.mapM Json.asString
  | _ => none

/-- Parsing of the analysis payload against `analysisSchema`: an object with
the three required fields `summary : STRING`, `actionItems : ARRAY of STRING`
and `highlights : ARRAY of STRING`. -/
def parseAnalysis : Json → Option AnalysisResult
  | .obj fields => do
      let s ← (fields.lookup "summary").bind Json.asString
      let a ← (fields.lookup "actionItems").bind Json.asStringArray
      let h ← (fields.lookup "highlights").bind Json.asStringArray
      some ⟨s, a, h⟩
  | _ => none

/-! Recording store (`db.ts`). -/

/-- Opaque audio payload of a stored recording; only its size and MIME type
are ever inspected. -/
structure Blob where
  size : ℕ
  mime : String
deriving DecidableEq

/-- A stored recording, following the `Recording` interface of `types.ts`. -/
structure Recording where
  id : String
  name : String
  date : String
  audioUrl : Option String
  audioBlob : Option Blob
  transcription : Option TranscriptionData
deriving DecidableEq

/-- A recording as returned by `getRecordingsFromDB`: the same record with
the `audioBlob` field removed (`const { audioBlob, ...rest } = rec`). -/
structure RecordingMeta where
  id : String
  name : String
  date : String
  audioUrl : Option String
  transcription : Option TranscriptionData
deriving DecidableEq

/-- The destructuring `const { audioBlob, ...rest } = rec; return rest`. -/
def stripBlob (r : Recording) : RecordingMeta :=
  ⟨r.id, r.name, r.date, r.audioUrl, r.transcription⟩

/-- The read operation `getRecordingsFromDB`.  `dateVal` models
`(s : string) => new Date(s).getTime()`; the store is the object store's
contents.  The result pairs the store after the read (a read-only
transaction, so unchanged) with the returned list: every record stripped of
its blob, sorted most-recent-first by the comparator
`(a, b) => dateVal(b.date) - dateVal(a.date)`. -/
def getRecordingsFromDB (dateVal : String → ℤ) (store : List Recording) :
    List Recording × List RecordingMeta :=
  (store, (store.map stripBlob).mergeSort fun a b => decide (dateVal b.date ≤ dateVal a.date))

/-! Arithmetic bridges between the executable representation-level
definitions and the ceiling/floor/round functions the spec speaks of. -/

/-- Integer ceiling division: for a positive divisor, `⌈q / b⌉` is the
Euclidean quotient `(q + b - 1) / b`. -/
lemma ceil_intCast_div (q b : ℤ) (hb : 0 < b) :
    ⌈(q : ℚ) / (b : ℚ)⌉ = (q + b - 1) / b := by
  have hb' : (0 : ℚ) < (b : ℚ) := by exact_mod_cast hb
  have h1 := Int.ediv_add_emod (q + b - 1) b
  have h2 := Int.emod_nonneg (q + b - 1) (ne_of_gt hb)
  have h3 := Int.emod_lt_of_pos (q + b - 1) hb
  rw [Int.ceil_eq_iff]
  constructor
  · rw [lt_div_iff₀ hb']
    have hg : ((q + b - 1) / b - 1) * b < q := by nlinarith
    exact_mod_cast hg
  · rw [div_le_iff₀ hb']
    have hg : q ≤ ((q + b - 1) / b) * b := by nlinarith
    exact_mod_cast hg

/-- Integer floor division: for a positive divisor, `⌊q / b⌋` is the
Euclidean quotient `q / b`. -/
lemma floor_intCast_div (q b : ℤ) (hb : 0 < b) :
    ⌊(q : ℚ) / (b : ℚ)⌋ = q / b := by
  have hb' : (0 : ℚ) < (b : ℚ) := by exact_mod_cast hb
  have h1 := Int.ediv_add_emod q b
  have h2 := Int.emod_nonneg q (ne_of_gt hb)
  have h3 := Int.emod_lt_of_pos q hb
  rw [Int.floor_eq_iff]
  constructor
  · rw [le_div_iff₀ hb']
    have hg : (q / b) * b ≤ q := by nlinarith
    exact_mod_cast hg
  · rw [div_lt_iff₀ hb']
    have hg : q < (q / b + 1) * b := by nlinarith
    exact_mod_cast hg

/-- The executable `numChunks` computes `Math.ceil(duration / 540)` for every
positive duration. -/
lemma numChunks_eq_ceil (d : ℚ) (hd : 0 < d) : (numChunks d : ℤ) = ⌈d / 540⌉ := by
  have hden : (0 : ℤ) < (d.den : ℤ) := by exact_mod_cast d.den_pos
  have hb : (0 : ℤ) < (MAX_CHUNK_SECONDS : ℤ) * d.den := by
    have h540 : (MAX_CHUNK_SECONDS : ℤ) = 540 := rfl
    rw [h540]; positivity
  have hq : d / 540 = (d.num : ℚ) / (((MAX_CHUNK_SECONDS : ℤ) * d.den : ℤ) : ℚ) := by
    conv_lhs => rw [← Rat.num_div_den d]
    have h540 : ((MAX_CHUNK_SECONDS : ℤ) : ℚ) = 540 := rfl
    push_cast [h540]
    rw [div_div]
    ring_nf
  rw [hq, ceil_intCast_div _ _ hb]
  unfold numChunks
  rw [Int.fdiv_eq_ediv _ (le_of_lt hb)]
  apply Int.toNat_of_nonneg
  apply Int.ediv_nonneg _ (le_of_lt hb)
  have hnum : 0 < d.num := Rat.num_pos.mpr hd
  linarith

/-- A clip longer than 540 seconds is split into at least two chunks. -/
lemma two_le_numChunks (d : ℚ) (hd : (540 : ℚ) < d) : 2 ≤ numChunks d := by
  have h0 : (0 : ℚ) < d := lt_trans (by norm_num) hd
  have h2 : (1 : ℤ) < ⌈d / 540⌉ := by
    apply Int.lt_ceil.mpr
    rw [show ((1 : ℤ) : ℚ) = 1 by norm_num, one_lt_div (by norm_num : (0:ℚ) < 540)]
    exact hd
  have h3 : (2 : ℤ) ≤ (numChunks d : ℤ) := by rw [numChunks_eq_ceil d h0]; omega
  exact_mod_cast h3

/-- The executable `chunkByteSize` computes `Math.ceil(totalSize / numChunks)`. -/
lemma chunkByteSize_eq_ceil (S n : ℕ) (hn : 0 < n) :
    (chunkByteSize S n : ℤ) = ⌈(S : ℚ) / (n : ℚ)⌉ := by
  have hb : (0 : ℤ) < (n : ℤ) := by exact_mod_cast hn
  have h := ceil_intCast_div (S : ℤ) (n : ℤ) hb
  have hcast : (((S : ℤ) : ℚ)) = (S : ℚ) := by push_cast; rfl
  have hcast2 : (((n : ℤ) : ℚ)) = (n : ℚ) := by push_cast; rfl
  rw [hcast, hcast2] at h
  rw [h]
  unfold chunkByteSize
  have h1 : (S + n - 1 : ℕ) = S + (n - 1) := by omega
  rw [h1, Int.natCast_div]
  congr 1
  push_cast [Nat.cast_sub hn]
  ring

/-- The chunks jointly have room for the whole clip: `numChunks * chunkByteSize`
is at least the total size. -/
lemma le_mul_chunkByteSize (S n : ℕ) (hn : 0 < n) : S ≤ n * chunkByteSize S n := by
  unfold chunkByteSize
  have h1 := Nat.div_add_mod (S + n - 1) n
  have h2 := Nat.mod_lt (S + n - 1) hn
  generalize hA : n * ((S + n - 1) / n) = A at h1 ⊢
  generalize hm : (S + n - 1) % n = m at h1 h2
  omega

/-- A nonempty clip gets nonempty chunk slices. -/
lemma chunkByteSize_pos (S n : ℕ) (hS : 0 < S) (hn : 0 < n) : 0 < chunkByteSize S n := by
  unfold chunkByteSize
  have h : 1 * n ≤ S + n - 1 := by omega
  exact (Nat.le_div_iff_mul_le hn).mpr h

/-- The executable `chunkProgress` computes `20 + Math.round((i / n) * 60)`. -/
lemma chunkProgress_eq_round (i n : ℕ) (hn : 0 < n) :
    (chunkProgress i n : ℤ) = 20 + round (((i : ℚ) / (n : ℚ)) * 60) := by
  have hb : (0 : ℤ) < ((2 * n : ℕ) : ℤ) := by exact_mod_cast Nat.mul_pos (by norm_num) hn
  have hn' : ((n : ℚ)) ≠ 0 := by positivity
  have hx : ((i : ℚ) / (n : ℚ)) * 60 + 1 / 2 = ((120 * i + n : ℕ) : ℚ) / ((2 * n : ℕ) : ℚ) := by
    push_cast
    field_simp
    ring
  rw [round_eq, hx]
  have h := floor_intCast_div ((120 * i + n : ℕ) : ℤ) ((2 * n : ℕ) : ℤ) hb
  have hc1 : ((((120 * i + n : ℕ) : ℤ)) : ℚ) = ((120 * i + n : ℕ) : ℚ) := by push_cast; ring
  have hc2 : ((((2 * n : ℕ) : ℤ)) : ℚ) = ((2 * n : ℕ) : ℚ) := by push_cast; ring
  rw [hc1, hc2] at h
  rw [h, ← Int.natCast_div]
  unfold chunkProgress
  push_cast
  ring

/-- C1: for every clip with duration `d > 540` seconds and total byte size `S`,
the chunk plan has `numChunks = ⌈d / 540⌉` chunks of `chunkByteSize = ⌈S / numChunks⌉`
bytes, chunk `i` spans `[i * chunkByteSize, (i+1) * chunkByteSize)` clipped to `S`,
the ranges cover `[0, S)` exactly once with no gaps or overlaps, and the last chunk
ends exactly at `S`. -/
theorem chunk_plan_partitions (d : ℚ) (S : ℕ) (hd : (540 : ℚ) < d) :
    ((numChunks d : ℤ) = ⌈d / 540⌉) ∧
    ((chunkByteSize S (numChunks d) : ℤ) = ⌈(S : ℚ) / (numChunks d : ℚ)⌉) ∧
    chunkPlan d S =
      (List.range (numChunks d)).map (chunkRange S (chunkByteSize S (numChunks d))) ∧
    (∀ i, i < numChunks d → chunkRange S (chunkByteSize S (numChunks d)) i =
        (min (i * chunkByteSize S (numChunks d)) S,
         min ((i + 1) * chunkByteSize S (numChunks d)) S)) ∧
    (∀ b, b < S → ∃! i, i < numChunks d ∧
        (chunkRange S (chunkByteSize S (numChunks d)) i).1 ≤ b ∧
        b < (chunkRange S (chunkByteSize S (numChunks d)) i).2) ∧
    (chunkRange S (chunkByteSize S (numChunks d)) (numChunks d - 1)).2 = S := by
  have hd0 : (0 : ℚ) < d := lt_trans (by norm_num) hd
  have hn2 : 2 ≤ numChunks d := two_le_numChunks d hd
  have hn : 0 < numChunks d := by omega
  set n := numChunks d with hnd
  set c := chunkByteSize S n with hcd
  have hSnc : S ≤ n * c := le_mul_chunkByteSize S n hn
  have hmax : ((MAX_CHUNK_SECONDS : ℕ) : ℚ) = 540 := by
    norm_num [MAX_CHUNK_SECONDS, MAX_CHUNK_MINUTES]
  refine ⟨numChunks_eq_ceil d hd0, chunkByteSize_eq_ceil S n hn, ?_, fun i _ => rfl, ?_, ?_⟩
  · unfold chunkPlan
    rw [if_neg]
    rw [hmax]
    exact not_le.mpr hd
  · intro b hb
    have hS : 0 < S := by omega
    have hc : 0 < c := chunkByteSize_pos S n hS hn
    refine ⟨b / c, ⟨?_, ?_, ?_⟩, ?_⟩
    · rw [Nat.div_lt_iff_lt_mul hc]
      exact lt_of_lt_of_le hb hSnc
    · simp only [chunkRange]
      exact le_trans (min_le_left _ _) (Nat.div_mul_le_self b c)
    · simp only [chunkRange]
      apply lt_min _ hb
      calc b = c * (b / c) + b % c := (Nat.div_add_mod b c).symm
        _ < c * (b / c) + c := by have := Nat.mod_lt b hc; omega
        _ = (b / c + 1) * c := by ring
    · rintro j ⟨hj, hj1, hj2⟩
      simp only [chunkRange] at hj1 hj2
      have hjc : j * c ≤ b := by
        rcases le_or_lt (j * c) S with h | h
        · rwa [min_eq_left h] at hj1
        · rw [min_eq_right (le_of_lt h)] at hj1; omega
      have hjc2 : b < (j + 1) * c := lt_of_lt_of_le hj2 (min_le_left _ _)
      exact (Nat.div_eq_of_lt_le hjc hjc2).symm
  · simp only [chunkRange]
    have he : n - 1 + 1 = n := by omega
    rw [he]
    exact min_eq_right hSnc

lemma finishStage_calls (raw : String) (evs : List ProgressEvent) (calls : List (ℕ × ℕ))
    (env : PipelineEnv) : (finishStage raw evs calls env).calls = calls := by
  unfold finishStage
  split
  · rfl
  · cases env.analyze raw <;> rfl

lemma processAudio_calls (d : ℚ) (S : ℕ) (env : PipelineEnv) :
    (processAudio d S env).calls = chunkPlan d S := by
  unfold processAudio
  cases assembleRaw d S env
  · rfl
  · exact finishStage_calls _ _ _ _

/-- C2: for every clip whose probed duration is at most 540 seconds (including the
sentinel 0), the plan is one chunk spanning the whole byte range and the pipeline
makes exactly one transcription call, with the entire clip. -/
theorem single_pass_single_chunk (d : ℚ) (S : ℕ) (env : PipelineEnv)
    (hd : d ≤ (MAX_CHUNK_SECONDS : ℚ)) :
    chunkPlan d S = [(0, S)] ∧ (processAudio d S env).calls = [(0, S)] := by
  have h1 : chunkPlan d S = [(0, S)] := by unfold chunkPlan; rw [if_pos hd]
  exact ⟨h1, by rw [processAudio_calls, h1]⟩

/-- Witness for C2 at the sentinel duration `d = 0`, `S = 77`. -/
theorem single_pass_single_chunk_witness :
    ((0 : ℚ) ≤ (MAX_CHUNK_SECONDS : ℚ)) ∧
    (chunkPlan 0 77 = [(0, 77)] ∧ (processAudio 0 77 envFail).calls = [(0, 77)]) :=
  ⟨by decide, single_pass_single_chunk 0 77 envFail (by decide)⟩

/-- C3: in chunked mode, when the transcription call for chunk `i` fails, the
placeholder naming chunk `i + 1` is substituted at position `i` of the segment
sequence and all `numChunks` chunks are still processed; in single-pass mode a
transcription failure propagates to the caller as the pipeline's error. -/
theorem chunk_failure_isolated (d : ℚ) (S : ℕ) (env : PipelineEnv) (i : ℕ) (e : String)
    (hd : (MAX_CHUNK_SECONDS : ℚ) < d) (hi : i < numChunks d)
    (hfail : env.transcribe (chunkRange S (chunkByteSize S (numChunks d)) i) = .error e) :
    (chunkSegments env S (chunkByteSize S (numChunks d)) (numChunks d))[i]?
        = some (errPlaceholder (i + 1)) ∧
    errPlaceholder (i + 1) = "\n[-- Error transcribing chunk " ++ toString (i + 1)
        ++ ". The audio segment might have been too long or corrupted. --]\n" ∧
    (chunkSegments env S (chunkByteSize S (numChunks d)) (numChunks d)).length = numChunks d ∧
    (processAudio d S env).calls.length = numChunks d ∧
    (∀ (d2 : ℚ) (S2 : ℕ) (env2 : PipelineEnv) (e2 : String), d2 ≤ (MAX_CHUNK_SECONDS : ℚ) →
        env2.transcribe (0, S2) = .error e2 → (processAudio d2 S2 env2).result = .error e2) := by
  have hnd : ¬ d ≤ (MAX_CHUNK_SECONDS : ℚ) := not_le.mpr hd
  refine ⟨?_, rfl, by simp [chunkSegments], ?_, ?_⟩
  · simp [chunkSegments, List.getElem?_map, List.getElem?_range hi, hfail]
  · rw [processAudio_calls]
    simp [chunkPlan, hnd]
  · intro d2 S2 env2 e2 hd2 h
    have hA : assembleRaw d2 S2 env2 = .error e2 := by
      unfold assembleRaw; rw [if_pos hd2, h]
    simp [processAudio, hA]

/-- C4: whenever the assembled raw transcript is empty or whitespace-only, the
pipeline fails with the "no transcript produced" error and the analysis call is
never attempted, so no `TranscriptionData` is returned. -/
theorem empty_transcript_fails (d : ℚ) (S : ℕ) (env : PipelineEnv) (raw : String)
    (ha : assembleRaw d S env = .ok raw) (hblank : jsTrim raw = "") :
    (processAudio d S env).result =
      .error "Failed to transcribe audio. The response was empty." ∧
    (processAudio d S env).analysisCalls = [] := by
  simp [processAudio, ha, finishStage, hblank]

/-- C7: parsing the schema-conforming payload
`{"summary": "S", "actionItems": ["A1"], "highlights": ["H1"]}` yields an
`AnalysisResult` with exactly those three fields, and the returned
`TranscriptionData` spreads the analysis fields and carries the raw transcript
unchanged. -/
theorem analysis_roundtrip (d : ℚ) (S : ℕ) (env : PipelineEnv) (raw : String)
    (a : AnalysisResult) (ha : assembleRaw d S env = .ok raw)
    (hblank : ¬ jsTrim raw = "") (han : env.analyze raw = .ok a) :
    parseAnalysis (Json.obj [("summary", Json.str "S"),
        ("actionItems", Json.arr [Json.str "A1"]),
        ("highlights", Json.arr [Json.str "H1"])]) = some ⟨"S", ["A1"], ["H1"]⟩ ∧
    (processAudio d S env).result = .ok ⟨a.summary, a.actionItems, a.highlights, raw⟩ := by
  refine ⟨rfl, ?_⟩
  simp [processAudio, ha, finishStage, hblank, han]

/-- C6: the transcript assembler joins the ordered per-chunk segments with a
single-space separator, so `["a", "b", "c"]` yields `"a b c"` (also end to end
through `assembleRaw` on a 3-chunk clip), and in single-pass mode the raw
transcript is the sole segment verbatim. -/
theorem transcript_assembly (d : ℚ) (S : ℕ) (env : PipelineEnv) (t : String)
    (hd : d ≤ (MAX_CHUNK_SECONDS : ℚ)) (ht : env.transcribe (0, S) = .ok t) :
    jsJoin " " ["a", "b", "c"] = "a b c" ∧
    chunkSegments envABC 3 1 3 = ["a", "b", "c"] ∧
    assembleRaw 1500 3 envABC = .ok "a b c" ∧
    assembleRaw d S env = .ok t := by
  refine ⟨rfl, rfl, rfl, ?_⟩
  unfold assembleRaw
  rw [if_pos hd, ht]

/-- Witness for C6: the single-pass verbatim case at `d = 0` with transcript `"x"`. -/
theorem transcript_assembly_witness :
    ((0 : ℚ) ≤ (MAX_CHUNK_SECONDS : ℚ) ∧ envX.transcribe (0, 5) = .ok "x") ∧
    (jsJoin " " ["a", "b", "c"] = "a b c" ∧
     chunkSegments envABC 3 1 3 = ["a", "b", "c"] ∧
     assembleRaw 1500 3 envABC = .ok "a b c" ∧
     assembleRaw 0 5 envX = .ok "x") :=
  ⟨⟨by decide, rfl⟩, transcript_assembly 0 5 envX "x" (by decide) rfl⟩

/-- C8: the duration prober resolves with the sentinel `0` when the payload is
undecodable (the media error event), and with the probed duration otherwise; it
is a total function, so no exception escapes it. -/
theorem duration_probe_sentinel :
    getAudioDuration none = 0 ∧ ∀ q : ℚ, getAudioDuration (some q) = q :=
  ⟨rfl, fun _ => rfl⟩

lemma jsTrim_eq_empty_iff (s : String) :
    jsTrim s = "" ↔ ∀ ch ∈ s.data, ch.isWhitespace := by
  unfold jsTrim
  constructor
  · intro h ch hch
    have hdata :
        ((s.data.dropWhile Char.isWhitespace).reverse.dropWhile Char.isWhitespace).reverse
          = [] := congrArg String.data h
    rw [List.reverse_eq_nil_iff, List.dropWhile_eq_nil_iff] at hdata
    have hsplit := List.takeWhile_append_dropWhile Char.isWhitespace s.data
    rw [← hsplit] at hch
    rcases List.mem_append.mp hch with h1 | h2
    · exact List.mem_takeWhile_imp h1
    · exact hdata _ (List.mem_reverse.mpr h2)
  · intro h
    have hgoal :
        ((s.data.dropWhile Char.isWhitespace).reverse.dropWhile Char.isWhitespace).reverse
          = [] := by
      rw [List.reverse_eq_nil_iff, List.dropWhile_eq_nil_iff]
      intro x hx
      exact h x ((List.dropWhile_sublist Char.isWhitespace).subset (List.mem_reverse.mp hx))
    rw [hgoal]

lemma not_blank_of_mem (s : String) (c : Char) (hc : c ∈ s.data)
    (hw : ¬ c.isWhitespace = true) : ¬ jsTrim s = "" :=
  fun h => hw ((jsTrim_eq_empty_iff s).mp h c hc)

lemma bracket_mem_errPlaceholder (k : ℕ) : '[' ∈ (errPlaceholder k).data := by
  unfold errPlaceholder
  rw [String.data_append, String.data_append]
  exact List.mem_append_left _ (List.mem_append_left _ (by decide))

lemma jsJoin_cons (sep x : String) (rest : List String) :
    ∃ t, jsJoin sep (x :: rest) = x ++ t := by
  cases rest with
  | nil => exact ⟨"", (String.append_empty x).symm⟩
  | cons y ys =>
      exact ⟨sep ++ jsJoin sep (y :: ys), (String.append_assoc x sep (jsJoin sep (y :: ys)))⟩

lemma join_errPlaceholder_not_blank (k : ℕ) (rest : List String) :
    ¬ jsTrim (jsJoin " " (errPlaceholder k :: rest)) = "" := by
  obtain ⟨t, ht⟩ := jsJoin_cons " " (errPlaceholder k) rest
  rw [ht]
  apply not_blank_of_mem _ '['
  · rw [String.data_append]
    exact List.mem_append_left _ (bracket_mem_errPlaceholder k)
  · decide

lemma finishStage_analysisCalls (raw : String) (evs : List ProgressEvent)
    (calls : List (ℕ × ℕ)) (env : PipelineEnv) (h : ¬ jsTrim raw = "") :
    (finishStage raw evs calls env).analysisCalls = [raw] := by
  unfold finishStage
  rw [if_neg h]
  cases env.analyze raw <;> rfl

/-- C9 (amended): in chunked mode, if every chunk's transcription call fails,
each failure contributes a non-whitespace placeholder, so the joined transcript
is not blank, the blank check passes, and the analysis call is attempted on the
placeholder-only text. -/
theorem chunked_failures_still_analyzed (d : ℚ) (S : ℕ) (env : PipelineEnv)
    (hd : (MAX_CHUNK_SECONDS : ℚ) < d)
    (hfail : ∀ i < numChunks d, ∃ e, env.transcribe
        (chunkRange S (chunkByteSize S (numChunks d)) i) = .error e) :
    ¬ jsTrim (jsJoin " "
        (chunkSegments env S (chunkByteSize S (numChunks d)) (numChunks d))) = "" ∧
    (processAudio d S env).analysisCalls =
      [jsJoin " " (chunkSegments env S (chunkByteSize S (numChunks d)) (numChunks d))] := by
  have hmax : ((MAX_CHUNK_SECONDS : ℕ) : ℚ) = 540 := by
    norm_num [MAX_CHUNK_SECONDS, MAX_CHUNK_MINUTES]
  have hd540 : (540 : ℚ) < d := by rw [← hmax]; exact hd
  have hn : 2 ≤ numChunks d := two_le_numChunks d hd540
  have hseg : ∃ rest, chunkSegments env S (chunkByteSize S (numChunks d)) (numChunks d)
      = errPlaceholder 1 :: rest := by
    obtain ⟨m, hm⟩ : ∃ m, numChunks d = m + 1 := ⟨numChunks d - 1, by omega⟩
    obtain ⟨e, he⟩ := hfail 0 (by omega)
    unfold chunkSegments
    rw [hm] at he ⊢
    rw [List.range_succ_eq_map, List.map_cons, he]
    exact ⟨_, rfl⟩
  obtain ⟨rest, hrest⟩ := hseg
  have hnb : ¬ jsTrim (jsJoin " "
      (chunkSegments env S (chunkByteSize S (numChunks d)) (numChunks d))) = "" := by
    rw [hrest]
    exact join_errPlaceholder_not_blank 1 rest
  have hnd : ¬ d ≤ (MAX_CHUNK_SECONDS : ℚ) := not_le.mpr hd
  have hA : assembleRaw d S env = .ok (jsJoin " "
      (chunkSegments env S (chunkByteSize S (numChunks d)) (numChunks d))) := by
    unfold assembleRaw
    rw [if_neg hnd]
  refine ⟨hnb, ?_⟩
  unfold processAudio
  rw [hA]
  exact finishStage_analysisCalls _ _ _ _ hnb

/-- Witness for the amended C9 at `d = 1080`, `S = 2` with every call failing. -/
theorem chunked_failures_still_analyzed_witness :
    ((MAX_CHUNK_SECONDS : ℚ) < 1080 ∧
      (∀ i < numChunks 1080, ∃ e, envFail.transcribe
        (chunkRange 2 (chunkByteSize 2 (numChunks 1080)) i) = .error e)) ∧
    (¬ jsTrim (jsJoin " "
        (chunkSegments envFail 2 (chunkByteSize 2 (numChunks 1080)) (numChunks 1080))) = "" ∧
      (processAudio 1080 2 envFail).analysisCalls =
        [jsJoin " " (chunkSegments envFail 2 (chunkByteSize 2 (numChunks 1080))
          (numChunks 1080))]) :=
  ⟨⟨by decide, fun i _ => ⟨"boom", rfl⟩⟩,
    chunked_failures_still_analyzed 1080 2 envFail (by decide) (fun i _ => ⟨"boom", rfl⟩)⟩

/-- Counterexample to C9 as stated: a chunked run (duration 1080, two chunks)
whose transcription calls all succeed with the empty string produces a blank
joined transcript, so the empty-transcript error branch is reached and the
analysis call is not attempted. -/
theorem chunked_blank_transcript_reachable :
    (MAX_CHUNK_SECONDS : ℚ) < 1080 ∧ 1 ≤ numChunks 1080 ∧
    chunkSegments envEmptyOk 2 (chunkByteSize 2 (numChunks 1080)) (numChunks 1080)
      = ["", ""] ∧
    jsTrim (jsJoin " "
      (chunkSegments envEmptyOk 2 (chunkByteSize 2 (numChunks 1080)) (numChunks 1080))) = "" ∧
    (processAudio 1080 2 envEmptyOk).result =
      .error "Failed to transcribe audio. The response was empty." ∧
    (processAudio 1080 2 envEmptyOk).analysisCalls = [] :=
  ⟨by decide, by decide, rfl, rfl, rfl, rfl⟩

lemma chunkProgress_mono (i j n : ℕ) (hij : i ≤ j) : chunkProgress i n ≤ chunkProgress j n := by
  unfold chunkProgress
  have h : 120 * i + n ≤ 120 * j + n := by omega
  exact Nat.add_le_add_left (Nat.div_le_div_right h) 20

lemma twenty_le_chunkProgress (i n : ℕ) : 20 ≤ chunkProgress i n :=
  Nat.le_add_right 20 _

lemma chunkProgress_le_80 (i n : ℕ) (hi : i < n) : chunkProgress i n ≤ 80 := by
  unfold chunkProgress
  have h2n : 0 < 2 * n := by omega
  have h61 : (120 * i + n) / (2 * n) < 61 := by
    rw [Nat.div_lt_iff_lt_mul h2n]
    omega
  omega

lemma chunkProgress_zero (n : ℕ) (hn : 0 < n) : chunkProgress 0 n = 20 := by
  unfold chunkProgress
  have h : (120 * 0 + n) / (2 * n) = 0 := Nat.div_eq_of_lt (by omega)
  rw [h]

lemma chain_chunkProgress (n : ℕ) :
    ((List.range n).map fun i => chunkProgress i n).Chain' (· ≤ ·) := by
  rw [List.chain'_map]
  cases n with
  | zero => simp
  | succ m =>
    rw [show m + 1 = Nat.succ m from rfl, List.chain'_range_succ]
    intro i _
    exact chunkProgress_mono i (i + 1) (m + 1) (by omega)

lemma transcriptionEvents_progress (d : ℚ) :
    (transcriptionEvents d).map ProgressEvent.progress =
      if d ≤ (MAX_CHUNK_SECONDS : ℚ) then [20]
      else (List.range (numChunks d)).map fun i => chunkProgress i (numChunks d) := by
  unfold transcriptionEvents
  split
  · rfl
  · rw [List.map_map]
    rfl

/-- C5: over a successful run the reported progress values are exactly the
milestones 5, then 20 (single-pass) or the interpolated per-chunk values
(chunked, each between 20 and 80), then 85, then 100; the sequence is
non-decreasing and ends at exactly 100. -/
theorem progress_reporting (d : ℚ) (S : ℕ) (env : PipelineEnv) (data : TranscriptionData)
    (h : (processAudio d S env).result = .ok data) :
    (processAudio d S env).events.map ProgressEvent.progress =
      5 :: ((if d ≤ (MAX_CHUNK_SECONDS : ℚ) then [20]
        else (List.range (numChunks d)).map fun i => chunkProgress i (numChunks d))
        ++ [85, 100]) ∧
    ((processAudio d S env).events.map ProgressEvent.progress).Chain' (· ≤ ·) ∧
    ((processAudio d S env).events.map ProgressEvent.progress).getLast? = some 100 ∧
    (¬ d ≤ (MAX_CHUNK_SECONDS : ℚ) → ∀ i < numChunks d,
      20 ≤ chunkProgress i (numChunks d) ∧ chunkProgress i (numChunks d) ≤ 80) := by
  have hev : (processAudio d S env).events =
      (⟨"Analyzing audio file...", 5⟩ :: transcriptionEvents d)
        ++ [⟨"Analyzing full transcript...", 85⟩, ⟨"Finalizing...", 100⟩] := by
    unfold processAudio at h ⊢
    split at h
    · simp at h
    · unfold finishStage at h ⊢
      split at h
      · simp at h
      · rename_i hnb
        rw [if_neg hnb]
        split at h
        · simp at h
        · rfl
  have h1 : (processAudio d S env).events.map ProgressEvent.progress =
      5 :: ((if d ≤ (MAX_CHUNK_SECONDS : ℚ) then [20]
        else (List.range (numChunks d)).map fun i => chunkProgress i (numChunks d))
        ++ [85, 100]) := by
    rw [hev]
    rw [List.map_append, List.map_cons, transcriptionEvents_progress]
    rfl
  refine ⟨h1, ?_, ?_, ?_⟩
  · rw [h1]
    by_cases hd : d ≤ (MAX_CHUNK_SECONDS : ℚ)
    · rw [if_pos hd]
      norm_num [List.chain'_cons, List.chain'_singleton]
    · rw [if_neg hd]
      have hmax : ((MAX_CHUNK_SECONDS : ℕ) : ℚ) = 540 := by
        norm_num [MAX_CHUNK_SECONDS, MAX_CHUNK_MINUTES]
      have hd540 : (540 : ℚ) < d := by rw [← hmax]; exact not_le.mp hd
      have hn2 : 2 ≤ numChunks d := two_le_numChunks d hd540
      obtain ⟨m, hm⟩ : ∃ m, numChunks d = m + 1 := ⟨numChunks d - 1, by omega⟩
      apply List.chain'_cons'.mpr
      constructor
      · intro y hy
        rw [List.head?_append, hm, List.range_succ_eq_map, List.map_cons] at hy
        simp only [List.head?_cons, Option.or_some, Option.mem_def, Option.some.injEq] at hy
        rw [← hy, chunkProgress_zero (m + 1) (by omega)]
        omega
      · apply List.chain'_append.mpr
        refine ⟨chain_chunkProgress (numChunks d),
          by norm_num [List.chain'_cons, List.chain'_singleton], ?_⟩
        have hlast : ((List.range (numChunks d)).map
            fun i => chunkProgress i (numChunks d)).getLast?
              = some (chunkProgress m (numChunks d)) := by
          rw [hm, List.range_succ, List.map_append, List.getLast?_append]
          rfl
        intro x hx y hy
        rw [Option.mem_def, hlast, Option.some_inj] at hx
        rw [Option.mem_def, List.head?_cons, Option.some_inj] at hy
        subst hx
        subst hy
        have h80 := chunkProgress_le_80 m (numChunks d) (by omega)
        omega
  · rw [h1]
    rw [show (5 : ℕ) ::
        ((if d ≤ (MAX_CHUNK_SECONDS : ℚ) then [20]
          else (List.range (numChunks d)).map fun i => chunkProgress i (numChunks d))
          ++ [85, 100]) =
        [5] ++ ((if d ≤ (MAX_CHUNK_SECONDS : ℚ) then [20]
          else (List.range (numChunks d)).map fun i => chunkProgress i (numChunks d))
          ++ [85, 100]) from rfl]
    rw [List.getLast?_append, List.getLast?_append]
    rfl
  · intro hd i hi
    exact ⟨twenty_le_chunkProgress i (numChunks d), chunkProgress_le_80 i (numChunks d) hi⟩

/-- C10: for every store state, `getRecordingsFromDB` leaves the store unchanged
and returns a permutation of the stored records each with its `audioBlob` field
removed, ordered by date descending (most recent first). -/
theorem recordings_list_view (dateVal : String → ℤ) (store : List Recording) :
    (getRecordingsFromDB dateVal store).1 = store ∧
    ((getRecordingsFromDB dateVal store).2).Perm (store.map stripBlob) ∧
    (∀ m ∈ (getRecordingsFromDB dateVal store).2, ∃ r ∈ store, m = stripBlob r) ∧
    ((getRecordingsFromDB dateVal store).2).Chain'
      (fun a b => dateVal b.date ≤ dateVal a.date) := by
  refine ⟨rfl, List.mergeSort_perm _ _, ?_, ?_⟩
  · intro m hm
    have hmem : m ∈ store.map stripBlob := (List.mergeSort_perm _ _).mem_iff.mp hm
    obtain ⟨r, hr, hrm⟩ := List.mem_map.mp hmem
    exact ⟨r, hr, hrm.symm⟩
  · have hs : ((store.map stripBlob).mergeSort
        fun a b => decide (dateVal b.date ≤ dateVal a.date)).Pairwise
          (fun a b => decide (dateVal b.date ≤ dateVal a.date) = true) := by
      apply List.sorted_mergeSort
      · intro a b c hab hbc
        rw [decide_eq_true_eq] at *
        exact le_trans hbc hab
      · intro a b
        rcases le_total (dateVal b.date) (dateVal a.date) with h | h
        · simp [h]
        · simp [h]
    exact (hs.imp fun hab => of_decide_eq_true hab).chain'

/-- Witness for C1 at `d = 1500`, `S = 10`. -/
theorem chunk_plan_partitions_witness :
    ((540 : ℚ) < 1500) ∧
    (((numChunks 1500 : ℤ) = ⌈(1500 : ℚ) / 540⌉) ∧
     ((chunkByteSize 10 (numChunks 1500) : ℤ)
        = ⌈((10 : ℕ) : ℚ) / (numChunks 1500 : ℚ)⌉) ∧
     chunkPlan 1500 10 =
       (List.range (numChunks 1500)).map (chunkRange 10 (chunkByteSize 10 (numChunks 1500))) ∧
     (∀ i, i < numChunks 1500 → chunkRange 10 (chunkByteSize 10 (numChunks 1500)) i =
         (min (i * chunkByteSize 10 (numChunks 1500)) 10,
          min ((i + 1) * chunkByteSize 10 (numChunks 1500)) 10)) ∧
     (∀ b, b < 10 → ∃! i, i < numChunks 1500 ∧
         (chunkRange 10 (chunkByteSize 10 (numChunks 1500)) i).1 ≤ b ∧
         b < (chunkRange 10 (chunkByteSize 10 (numChunks 1500)) i).2) ∧
     (chunkRange 10 (chunkByteSize 10 (numChunks 1500)) (numChunks 1500 - 1)).2 = 10) :=
  ⟨by decide, chunk_plan_partitions 1500 10 (by decide)⟩

/-- Witness for C3 at `d = 1080`, `S = 2`, failing chunk `i = 0`. -/
theorem chunk_failure_isolated_witness :
    ((MAX_CHUNK_SECONDS : ℚ) < 1080 ∧ 0 < numChunks 1080 ∧
      envFail.transcribe (chunkRange 2 (chunkByteSize 2 (numChunks 1080)) 0)
        = .error "boom") ∧
    ((chunkSegments envFail 2 (chunkByteSize 2 (numChunks 1080)) (numChunks 1080))[0]?
        = some (errPlaceholder (0 + 1)) ∧
     errPlaceholder (0 + 1) = "\n[-- Error transcribing chunk " ++ toString (0 + 1)
        ++ ". The audio segment might have been too long or corrupted. --]\n" ∧
     (chunkSegments envFail 2 (chunkByteSize 2 (numChunks 1080)) (numChunks 1080)).length
        = numChunks 1080 ∧
     (processAudio 1080 2 envFail).calls.length = numChunks 1080 ∧
     (∀ (d2 : ℚ) (S2 : ℕ) (env2 : PipelineEnv) (e2 : String), d2 ≤ (MAX_CHUNK_SECONDS : ℚ) →
        env2.transcribe (0, S2) = .error e2 → (processAudio d2 S2 env2).result = .error e2)) :=
  ⟨⟨by decide, by decide, rfl⟩,
    chunk_failure_isolated 1080 2 envFail 0 "boom" (by decide) (by decide) rfl⟩

/-- Witness for C4: a single-pass run whose sole transcription result is `""`. -/
theorem empty_transcript_fails_witness :
    (assembleRaw 0 0 envEmptyOk = .ok "" ∧ jsTrim "" = "") ∧
    ((processAudio 0 0 envEmptyOk).result =
        .error "Failed to transcribe audio. The response was empty." ∧
     (processAudio 0 0 envEmptyOk).analysisCalls = []) :=
  ⟨⟨rfl, rfl⟩, empty_transcript_fails 0 0 envEmptyOk "" rfl rfl⟩

/-- Witness for C7: a successful single-pass run with transcript `"x"`. -/
theorem analysis_roundtrip_witness :
    (assembleRaw 0 5 envX = .ok "x" ∧ ¬ jsTrim "x" = "" ∧
      envX.analyze "x" = .ok ⟨"S", ["A1"], ["H1"]⟩) ∧
    (parseAnalysis (Json.obj [("summary", Json.str "S"),
        ("actionItems", Json.arr [Json.str "A1"]),
        ("highlights", Json.arr [Json.str "H1"])]) = some ⟨"S", ["A1"], ["H1"]⟩ ∧
     (processAudio 0 5 envX).result = .ok ⟨"S", ["A1"], ["H1"], "x"⟩) :=
  ⟨⟨rfl, by decide, rfl⟩, analysis_roundtrip 0 5 envX "x" ⟨"S", ["A1"], ["H1"]⟩ rfl (by decide) rfl⟩

/-- Witness for C5: a successful single-pass run. -/
theorem progress_reporting_witness :
    ((processAudio 0 5 envX).result = .ok ⟨"S", ["A1"], ["H1"], "x"⟩) ∧
    ((processAudio 0 5 envX).events.map ProgressEvent.progress =
      5 :: ((if (0 : ℚ) ≤ (MAX_CHUNK_SECONDS : ℚ) then [20]
        else (List.range (numChunks 0)).map fun i => chunkProgress i (numChunks 0))
        ++ [85, 100]) ∧
     ((processAudio 0 5 envX).events.map ProgressEvent.progress).Chain' (· ≤ ·) ∧
     ((processAudio 0 5 envX).events.map ProgressEvent.progress).getLast? = some 100 ∧
     (¬ (0 : ℚ) ≤ (MAX_CHUNK_SECONDS : ℚ) → ∀ i < numChunks 0,
       20 ≤ chunkProgress i (numChunks 0) ∧ chunkProgress i (numChunks 0) ≤ 80)) :=
  ⟨rfl, progress_reporting 0 5 envX ⟨"S", ["A1"], ["H1"], "x"⟩ rfl⟩

end AudioScriber
